import Mathlib

/-!
Shallow embedding of the silibox state store, idle policy and autosleep
scheduler (Go packages state, agent and vm), together with theorems
checking the specification claims against the embedded code.

Go maps are modelled as association lists in insertion order; Go
time.Time and time.Duration are modelled as integers (a fixed unit);
the file system is modelled as an association list from path to file
contents; JSON encoding and decoding are modelled as parameters
(serialize, parse) of the functions that use them.
-/

namespace Silibox

/-! Association-list operations modelling Go map indexing, assignment
and delete.  Keys are unique in every list built by the operations
below, mirroring Go map semantics. -/

def mapGet {α : Type} : List (String × α) → String → Option α
  | [], _ => none
  | p :: rest, k => if p.1 = k then some p.2 else mapGet rest k

def mapSet {α : Type} : List (String × α) → String → α → List (String × α)
  | [], k, v => [(k, v)]
  | p :: rest, k, v => if p.1 = k then (k, v) :: rest else p :: mapSet rest k v

def mapDel {α : Type} : List (String × α) → String → List (String × α)
  | [], _ => []
  | p :: rest, k => if p.1 = k then mapDel rest k else p :: mapDel rest k

/-! Data model: the Go structs of package state. -/

structure HostInfo where
  UID  : Int
  GID  : Int
  Arch : String
  OS   : String
deriving DecidableEq, Repr

structure VMInfo where
  Name         : String
  Backend      : String
  Profile      : String
  CPUs         : Int
  Memory       : String
  Disk         : String
  Status       : String
  ConfigSHA256 : String
  LastActive   : Int
deriving DecidableEq, Repr

structure Mount where
  Host  : String
  Guest : String
  RW    : Bool
deriving DecidableEq, Repr

structure UserInfo where
  UID  : Int
  GID  : Int
  Name : String
deriving DecidableEq, Repr

structure EnvInfo where
  Name          : String
  Image         : String
  Runtime       : String
  ProjectPath   : String
  ContainerID   : String
  Volumes       : List (String × String)
  Mounts        : List (String × Mount)
  Ports         : List (String × Int)
  User          : UserInfo
  Status        : String
  Persistent    : Bool
  LastActive    : Int
  ExportedShims : List String
  MigratedDirs  : Option (List (String × String))
deriving DecidableEq, Repr

structure PortRegistry where
  NextEphemeral : Int
  Reserved      : List (String × List Int)
deriving DecidableEq, Repr

structure ShimInfo where
  Env    : String
  Target : String
deriving DecidableEq, Repr

structure State where
  Schema    : Int
  UpdatedAt : Int
  Host      : HostInfo
  VM        : Option VMInfo
  Ports     : PortRegistry
  Envs      : List (String × EnvInfo)
  Shims     : List (String × ShimInfo)
deriving DecidableEq, Repr

def SchemaVersion : Int := 2

/-- Ambient process environment consumed by NewState and Load: the ids
returned by getCurrentUserIDs, the runtime architecture and OS strings,
and the current clock value (time.Now). -/
structure SysEnv where
  uid  : Int
  gid  : Int
  arch : String
  os   : String
  now  : Int
deriving DecidableEq, Repr

/-- NewState creates a new empty state (Go state.NewState). -/
def NewState (env : SysEnv) : State :=
  { Schema := SchemaVersion
    UpdatedAt := env.now
    Host := { UID := env.uid, GID := env.gid, Arch := env.arch, OS := env.os }
    VM := none
    Ports := { NextEphemeral := 51000, Reserved := [] }
    Envs := []
    Shims := [] }

/-! State store operations (Go methods on *state.State). -/

def State.GetVM (s : State) : Option VMInfo :=
  s.VM

def State.SetVM (s : State) (vm : Option VMInfo) : State :=
  { s with VM := vm }

def State.UpdateVMStatus (s : State) (status : String) : State :=
  match s.VM with
  | some vm => { s with VM := some { vm with Status := status } }
  | none => s

def State.TouchVMActivity (s : State) (now : Int) : State :=
  match s.VM with
  | some vm => { s with VM := some { vm with LastActive := now } }
  | none => s

def State.UpsertEnv (s : State) (env : EnvInfo) : State :=
  { s with Envs := mapSet s.Envs env.Name env }

def State.GetEnv (s : State) (name : String) : Option EnvInfo :=
  mapGet s.Envs name

def State.ListEnvs (s : State) : List EnvInfo :=
  s.Envs.map (fun p => p.2)

def State.ReleasePorts (s : State) (name : String) : State :=
  { s with Ports := { s.Ports with Reserved := mapDel s.Ports.Reserved name } }

def State.RemoveEnv (s : State) (name : String) : State :=
  let s1 : State := { s with Envs := mapDel s.Envs name }
  s1.ReleasePorts name

def State.UpdateEnvStatus (s : State) (name status : String) : State :=
  { s with Envs := s.Envs.map (fun p => if p.1 = name then (p.1, { p.2 with Status := status }) else p) }

def State.TouchEnvActivity (s : State) (name : String) (now : Int) : State :=
  { s with Envs := s.Envs.map (fun p => if p.1 = name then (p.1, { p.2 with LastActive := now }) else p) }

/-- Scan of the reservation table performed by ReservePort: for every
port held by any owner, in table order, if it equals the current
suggestion the suggestion is replaced by the ephemeral cursor and the
cursor advances. -/
def reserveScan (acc : Int × Int) (entries : List (String × List Int)) : Int × Int :=
  entries.foldl
    (fun a entry =>
      entry.2.foldl (fun b port => if port = b.1 then (b.2, b.2 + 1) else b) a)
    acc

/-- ReservePort (Go (*State).ReservePort): returns the chosen port and
the error value (always nil in the source), together with the updated
state. -/
def State.ReservePort (s : State) (name : String) (suggested : Int) :
    (Int × Option String) × State :=
  let scan := reserveScan (suggested, s.Ports.NextEphemeral) s.Ports.Reserved
  let port := scan.1
  let next := scan.2
  let reserved :=
    match mapGet s.Ports.Reserved name with
    | none => s.Ports.Reserved ++ [(name, [port])]
    | some ports => mapSet s.Ports.Reserved name (ports ++ [port])
  ((port, none), { s with Ports := { NextEphemeral := next, Reserved := reserved } })

def State.RegisterShim (s : State) (aliasName env targetPath : String) : State :=
  { s with Shims := mapSet s.Shims aliasName { Env := env, Target := targetPath } }

def State.UnregisterShim (s : State) (aliasName : String) : State :=
  { s with Shims := mapDel s.Shims aliasName }

/-! Persistence layer (Go Load, SaveAtomic, WithLockedState), over a
model file system.  Contents that fail to decode model corrupt files. -/

/-- Model file system: association list from path to file contents. -/
def FS : Type := List (String × String)

def FS.read (fs : FS) (path : String) : Option String :=
  mapGet fs path

def FS.write (fs : FS) (path contents : String) : FS :=
  mapSet fs path contents

/-- Model of os.Rename: moves the contents at src to dst, overwriting
dst; identity when src does not exist. -/
def FS.rename (fs : FS) (src dst : String) : FS :=
  match mapGet fs src with
  | none => fs
  | some contents => FS.write (mapDel fs src) dst contents

def StateDir : String := ".sili"

def StateFile : String := "state.json"

def statePath : String := StateDir ++ "/" ++ StateFile

/-- Go state.migrate: from v1 to v2, gives every environment an empty
MigratedDirs map when it has none, then records the target schema. -/
def migrate (s : State) (vFrom vTo : Int) : State :=
  let s1 :=
    if vFrom < 2 ∧ vTo ≥ 2 then
      { s with Envs := s.Envs.map (fun p =>
          match p.2.MigratedDirs with
          | none => (p.1, { p.2 with MigratedDirs := some [] })
          | some _ => p) }
    else s
  { s1 with Schema := vTo }

/-- Go state.Load: reads the state file; a missing file yields a fresh
document, an unparseable file is renamed aside to a timestamped backup
path and a fresh document is returned; a parsed document below the
current schema version is migrated. -/
def Load (parse : String → Option State) (env : SysEnv) (fs : FS) :
    Except String (State × FS) :=
  match fs.read statePath with
  | none => Except.ok (NewState env, fs)
  | some data =>
    match parse data with
    | none =>
      let backupPath := statePath ++ ".bak-" ++ toString env.now
      Except.ok (NewState env, fs.rename statePath backupPath)
    | some st =>
      if st.Schema < SchemaVersion then
        Except.ok (migrate st st.Schema SchemaVersion, fs)
      else
        Except.ok (st, fs)

/-- Go state.SaveAtomic: stamps UpdatedAt and Schema, serializes, writes
a sibling temporary file, and renames it over the canonical path. -/
def SaveAtomic (serialize : State → String) (now : Int) (st : State) (fs : FS) : FS :=
  let stamped := { st with UpdatedAt := now, Schema := SchemaVersion }
  let data := serialize stamped
  let tmpPath := statePath ++ ".tmp"
  let fs1 := fs.write tmpPath data
  fs1.rename tmpPath statePath

/-- Go state.WithLockedState: acquires the advisory lock (lockFree
models whether the non-blocking TryLock succeeds), loads the document,
runs the callback, and saves atomically only when the callback
succeeds.  Returns the resulting file system and the error value of the
call (none on success). -/
def WithLockedState (parse : String → Option State) (serialize : State → String)
    (env : SysEnv) (lockFree : Bool) (fn : State → Except String State)
    (fs : FS) : FS × Option String :=
  if lockFree then
    match Load parse env fs with
    | Except.error e => (fs, some ("failed to load state: " ++ e))
    | Except.ok (st, fs1) =>
      match fn st with
      | Except.error e => (fs1, some e)
      | Except.ok st1 => (SaveAtomic serialize env.now st1 fs1, none)
  else
    (fs, some "state is locked by another process")

/-! Idle policy (Go package agent, idle.go). -/

/-- Go agent.GetIdleEnvironments, evaluated against an already loaded
state document: skips persistent environments and stopped environments,
and collects those whose idle duration strictly exceeds the
threshold. -/
def GetIdleEnvironments (threshold now : Int) (st : State) : List EnvInfo :=
  st.ListEnvs.foldl
    (fun acc env =>
      if env.Persistent then acc
      else if env.Status = "stopped" then acc
      else if now - env.LastActive > threshold then acc ++ [env]
      else acc)
    []

/-- Go agent.IsVMIdle, evaluated against an already loaded state
document: no VM record or a stopped VM is idle; otherwise the VM is
idle exactly when every environment is stopped and the idle duration
strictly exceeds the threshold. -/
def IsVMIdle (threshold now : Int) (st : State) : Bool :=
  match st.GetVM with
  | none => true
  | some vm =>
    if vm.Status = "stopped" then true
    else
      let allStopped := st.ListEnvs.all (fun env => env.Status = "stopped")
      if allStopped then decide (now - vm.LastActive > threshold)
      else false

/-! Autosleep scheduler tick (Go package agent, autosleep.go). -/

structure AutosleepConfig where
  ContainerIdleTimeout : Int
  VMIdleTimeout        : Int
  PollInterval         : Int
  StopVM               : Bool
deriving DecidableEq, Repr

/-- Go agent.DefaultAutosleepConfig, in minutes-free integer time
units: 15 minutes, 30 minutes, 30 seconds, expressed in seconds. -/
def DefaultAutosleepConfig : AutosleepConfig :=
  { ContainerIdleTimeout := 900, VMIdleTimeout := 1800, PollInterval := 30, StopVM := true }

/-- External actions a scheduler tick can issue (container.Stop on an
environment name, or a stop of the VM). -/
inductive SchedAction where
  | stopContainer (name : String)
  | stopVM
deriving DecidableEq, Repr

/-- Go agent.checkAndStopIdle, the body of every scheduler tick,
evaluated against an already loaded state document: computes the idle
environments and issues a container stop for each; when there are none
it returns immediately.  The list of issued external actions is
returned. -/
def checkAndStopIdle (cfg : AutosleepConfig) (now : Int) (st : State) :
    List SchedAction :=
  let idleEnvs := GetIdleEnvironments cfg.ContainerIdleTimeout now st
  if idleEnvs.isEmpty then []
  else idleEnvs.map (fun env => SchedAction.stopContainer env.Name)

/-! VM lifecycle helper (Go package vm, EnsureVMRunning). -/

/-- Sizing passed to the Lima supervisor (Go lima.Config). -/
structure LimaConfig where
  CPUs   : Int
  Memory : String
  Disk   : String
deriving DecidableEq, Repr

/-- Result of the live query lima.GetInstance: a transport error, or
whether the instance exists together with its live status string. -/
structure LimaQuery where
  err    : Option String
  found  : Bool
  status : String
deriving DecidableEq, Repr

/-- External actions EnsureVMRunning can issue. -/
inductive VMAction where
  | limaUp (cfg : LimaConfig)
deriving DecidableEq, Repr

/-- Go vm.EnsureVMRunning, evaluated against an already loaded state
document and a live supervisor query: errors when no VM record exists;
when the stored status is running it trusts a confirming live query;
otherwise it issues a supervisor start with the fixed default sizing
(4 CPUs, 4GiB, 100GiB).  Returns the issued actions, the error value,
and the resulting state document, which the function never modifies. -/
def EnsureVMRunning (st : State) (q : LimaQuery) (upOk : Bool) :
    List VMAction × Option String × State :=
  match st.GetVM with
  | none => ([], some "VM not found. Run sili vm up to create it", st)
  | some vm =>
    if vm.Status = "running" ∧ q.err = none ∧ q.found ∧ q.status = "Running" then
      ([], none, st)
    else if vm.Status = "running" ∧ q.err ≠ none then
      ([], some "failed to check VM status", st)
    else
      let cfg : LimaConfig := { CPUs := 4, Memory := "4GiB", Disk := "100GiB" }
      if upOk then ([VMAction.limaUp cfg], none, st)
      else ([VMAction.limaUp cfg], some "failed to start VM", st)

/-! Operation alphabet of the state store, for reachability claims. -/

inductive Op where
  | setVM (vm : Option VMInfo)
  | updateVMStatus (status : String)
  | touchVMActivity (now : Int)
  | upsertEnv (env : EnvInfo)
  | removeEnv (name : String)
  | updateEnvStatus (name status : String)
  | touchEnvActivity (name : String) (now : Int)
  | reservePort (name : String) (suggested : Int)
  | releasePorts (name : String)
  | registerShim (aliasName env target : String)
  | unregisterShim (aliasName : String)
deriving DecidableEq, Repr

def applyOp : Op → State → State
  | Op.setVM vm, s => s.SetVM vm
  | Op.updateVMStatus status, s => s.UpdateVMStatus status
  | Op.touchVMActivity now, s => s.TouchVMActivity now
  | Op.upsertEnv env, s => s.UpsertEnv env
  | Op.removeEnv name, s => s.RemoveEnv name
  | Op.updateEnvStatus name status, s => s.UpdateEnvStatus name status
  | Op.touchEnvActivity name now, s => s.TouchEnvActivity name now
  | Op.reservePort name suggested, s => (s.ReservePort name suggested).2
  | Op.releasePorts name, s => s.ReleasePorts name
  | Op.registerShim a e t, s => s.RegisterShim a e t
  | Op.unregisterShim a, s => s.UnregisterShim a

def applyOps (ops : List Op) (s : State) : State :=
  ops.foldl (fun st op => applyOp op st) s

/-- A document is reachable when some sequence of store operations
produces it from the initial empty document. -/
def Reachable (env : SysEnv) (s : State) : Prop :=
  ∃ ops : List Op, applyOps ops (NewState env) = s

/-- Whether the given owner currently holds the given port in the
registry. -/
def portHeldBy (s : State) (owner : String) (port : Int) : Bool :=
  match mapGet s.Ports.Reserved owner with
  | none => false
  | some ports => ports.contains port

/-- The invariant of claim C9: when the VM record is absent, no
environment record has status running. -/
def noRunningEnvWithoutVM (s : State) : Bool :=
  s.VM.isSome || s.Envs.all (fun p => decide (p.2.Status ≠ "running"))

/-- Guard under which a store operation preserves
noRunningEnvWithoutVM: setting a running environment status requires
the VM record to be present, and clearing the VM record requires that
no environment is running. -/
def okOp : Op → State → Bool
  | Op.setVM none, s => s.Envs.all (fun p => decide (p.2.Status ≠ "running"))
  | Op.setVM (some _), _ => true
  | Op.upsertEnv env, s => decide (env.Status ≠ "running") || s.VM.isSome
  | Op.updateEnvStatus _ status, s => decide (status ≠ "running") || s.VM.isSome
  | _, _ => true

def okSeq : List Op → State → Bool
  | [], _ => true
  | op :: rest, s => okOp op s && okSeq rest (applyOp op s)

/-! Concrete fixtures used by witnesses and counterexamples. -/

def sysEnv0 : SysEnv :=
  { uid := 501, gid := 20, arch := "arm64", os := "darwin", now := 0 }

def mkEnv (name status : String) (persistent : Bool) (lastActive : Int) : EnvInfo :=
  { Name := name
    Image := "ubuntu"
    Runtime := "podman"
    ProjectPath := "/home/u/proj"
    ContainerID := "c1"
    Volumes := []
    Mounts := []
    Ports := []
    User := { UID := 501, GID := 20, Name := "u" }
    Status := status
    Persistent := persistent
    LastActive := lastActive
    ExportedShims := []
    MigratedDirs := some [] }

def mkVM (status : String) (lastActive : Int) (cpus : Int) (memory disk : String) : VMInfo :=
  { Name := "silibox"
    Backend := "lima"
    Profile := "default"
    CPUs := cpus
    Memory := memory
    Disk := disk
    Status := status
    ConfigSHA256 := "deadbeef"
    LastActive := lastActive }

/-- Fixture for C2: a stopped environment and a VM last active 2400
time units ago, so the VM is idle for the default 1800 threshold. -/
def stC2 : State :=
  { NewState sysEnv0 with
      VM := some (mkVM "running" 0 4 "4GiB" "100GiB")
      Envs := [("dev", mkEnv "dev" "stopped" false 0)] }

/-- Fixture for C6: a stopped VM record next to a running
environment. -/
def stC6 : State :=
  { NewState sysEnv0 with
      VM := some (mkVM "stopped" 0 4 "4GiB" "100GiB")
      Envs := [("dev", mkEnv "dev" "running" false 0)] }

/-- Fixture for C6 witness: a running VM record next to a running
environment. -/
def stW6 : State :=
  { NewState sysEnv0 with
      VM := some (mkVM "running" 0 4 "4GiB" "100GiB")
      Envs := [("dev", mkEnv "dev" "running" false 0)] }

/-- Fixture for C7: a stopped VM whose recorded sizing differs from
the compiled-in default sizing. -/
def vmSizedC : VMInfo := mkVM "stopped" 0 8 "8GiB" "200GiB"

def stC7 : State := { NewState sysEnv0 with VM := some vmSizedC }

def qC : LimaQuery := { err := none, found := false, status := "" }

/-- Fixture for C8: ports reserved under a name that has no
environment record. -/
def docX : State :=
  { NewState sysEnv0 with
      Ports := { NextEphemeral := 51000, Reserved := [("x", [51000])] } }

/-- Fixture for claims about documents read from disk: a schema-current
document distinct from the fresh one. -/
def docW : State :=
  { NewState sysEnv0 with
      Envs := [("dev", mkEnv "dev" "running" false 7)] }

def parseW : String → Option State :=
  fun s => if s = "DOC" then some docW else none

def serializeW : State → String :=
  fun _ => "OUT"

def fsW : FS := [(statePath, "DOC")]

def fnErrW : State → Except String State :=
  fun _ => Except.error "boom"

def fnOkW : State → Except String State :=
  fun st => Except.ok (st.UpdateEnvStatus "dev" "stopped")

/-- Fixture for C1: both owners suggest port 51000 starting from the
fresh registry, whose ephemeral cursor also starts at 51000. -/
def s2C1 : State :=
  applyOps [Op.reservePort "a" 51000, Op.reservePort "b" 51000] (NewState sysEnv0)

/-- Fixture for C9 witness: a guarded operation sequence that creates
the VM record before marking an environment running. -/
def opsW : List Op :=
  [Op.setVM (some (mkVM "running" 0 4 "4GiB" "100GiB")),
   Op.upsertEnv (mkEnv "dev" "running" false 0)]

/-- Fixture for C9 counterexample: a running environment upserted into
the initial document, which has no VM record. -/
def badDoc : State :=
  applyOps [Op.upsertEnv (mkEnv "dev" "running" false 0)] (NewState sysEnv0)

/-- The sizing EnsureVMRunning hard-codes when it starts the VM. -/
def limaDefault : LimaConfig :=
  { CPUs := 4, Memory := "4GiB", Disk := "100GiB" }

/-! Helper lemmas about the map model. -/

theorem mapGet_set_self {α : Type} (l : List (String × α)) (k : String) (v : α) :
    mapGet (mapSet l k v) k = some v := by
  induction l with
  | nil => simp [mapSet, mapGet]
  | cons p rest ih =>
    simp only [mapSet]
    by_cases h : p.1 = k
    · rw [if_pos h]; simp [mapGet]
    · rw [if_neg h]; simp only [mapGet]; rw [if_neg h]; exact ih

theorem mapGet_del_self {α : Type} (l : List (String × α)) (k : String) :
    mapGet (mapDel l k) k = none := by
  induction l with
  | nil => rfl
  | cons p rest ih =>
    simp only [mapDel]
    by_cases h : p.1 = k
    · rw [if_pos h]; exact ih
    · rw [if_neg h]; simp only [mapGet]; rw [if_neg h]; exact ih

theorem mapDel_of_get_none {α : Type} (l : List (String × α)) (k : String)
    (h : mapGet l k = none) : mapDel l k = l := by
  induction l with
  | nil => rfl
  | cons p rest ih =>
    simp only [mapGet] at h
    by_cases hp : p.1 = k
    · rw [if_pos hp] at h; exact absurd h (by simp)
    · rw [if_neg hp] at h
      simp only [mapDel]
      rw [if_neg hp, ih h]

/-! Claim C10. -/

/-- Claim C10 (confirmed): ReservePort always succeeds — the error
component of its result is nil on every input, so callers never
observe a reservation failure. -/
theorem reservePort_error_always_none :
    ∀ (s : State) (name : String) (suggested : Int),
      ((State.ReservePort s name suggested).1).2 = none :=
  fun _ _ _ => rfl

/-! Claim C1. -/

/-- Claim C1 (code bug): evaluating the port registry code on the
failing input — ReservePort from the fresh registry with owner a
suggesting 51000, then owner b suggesting 51000 — leaves the same port
value 51000 in the reservation lists of the two distinct owners,
violating the stated invariant. -/
theorem reservePort_duplicate_across_owners :
    portHeldBy s2C1 "a" 51000 = true ∧ portHeldBy s2C1 "b" 51000 = true
    ∧ "a" ≠ "b" := by decide

/-! Claim C2. -/

/-- Claim C2 (code bug): the scheduler tick body never issues a VM
stop on any input, and on the failing input — stop-VM flag enabled,
every environment stopped, and the VM idle beyond its timeout — it
issues no action at all, even though the VM-idle predicate holds. -/
theorem autosleepTick_never_stops_vm :
    (∀ (cfg : AutosleepConfig) (now : Int) (st : State),
        (checkAndStopIdle cfg now st).all
          (fun a => decide (a ≠ SchedAction.stopVM)) = true)
    ∧ checkAndStopIdle DefaultAutosleepConfig 2400 stC2 = []
    ∧ DefaultAutosleepConfig.StopVM = true
    ∧ IsVMIdle DefaultAutosleepConfig.VMIdleTimeout 2400 stC2 = true := by
  refine ⟨?_, by decide, by decide, by decide⟩
  intro cfg now st
  unfold checkAndStopIdle
  by_cases h : (GetIdleEnvironments cfg.ContainerIdleTimeout now st).isEmpty
  · rw [if_pos h]; rfl
  · rw [if_neg h]
    simp [List.all_eq_true]

/-! Claim C5. -/

theorem getIdle_foldl_eq_filter (threshold now : Int) :
    ∀ (l acc : List EnvInfo),
      l.foldl
        (fun acc env =>
          if env.Persistent then acc
          else if env.Status = "stopped" then acc
          else if now - env.LastActive > threshold then acc ++ [env]
          else acc)
        acc
      = acc ++ l.filter
          (fun env => !env.Persistent && decide (env.Status ≠ "stopped")
            && decide (now - env.LastActive > threshold)) := by
  intro l
  induction l with
  | nil => intro acc; simp
  | cons e rest ih =>
    intro acc
    simp only [List.foldl_cons, List.filter_cons]
    by_cases hp : e.Persistent = true
    · rw [if_pos hp, ih]; simp [hp]
    · rw [if_neg hp]
      by_cases hs : e.Status = "stopped"
      · rw [if_pos hs, ih]; simp [hp, hs]
      · rw [if_neg hs]
        by_cases ht : now - e.LastActive > threshold
        · rw [if_pos ht, ih]; simp [hp, hs, ht]
        · rw [if_neg ht, ih]; simp [hp, hs, ht]

theorem getIdle_eq_filter (threshold now : Int) (st : State) :
    GetIdleEnvironments threshold now st
      = st.ListEnvs.filter
          (fun env => !env.Persistent && decide (env.Status ≠ "stopped")
            && decide (now - env.LastActive > threshold)) := by
  unfold GetIdleEnvironments
  rw [getIdle_foldl_eq_filter]
  simp

/-- Claim C5 (confirmed): an environment is returned by the
idle-environment computation exactly when it is an environment of the
document whose persistent flag is false, whose status is not stopped,
and whose idle duration now minus lastActive strictly exceeds the
container idle timeout. -/
theorem getIdleEnvironments_mem_iff :
    ∀ (threshold now : Int) (st : State) (env : EnvInfo),
      env ∈ GetIdleEnvironments threshold now st
        ↔ env ∈ st.ListEnvs ∧ env.Persistent = false ∧ env.Status ≠ "stopped"
            ∧ now - env.LastActive > threshold := by
  intro threshold now st env
  rw [getIdle_eq_filter, List.mem_filter]
  simp [and_assoc]

/-! Claim C6. -/

/-- Claim C6, amended (corrected): the VM-idle predicate returns true
exactly when no VM record exists, or the VM status is stopped, or
every known environment is stopped and the VM idle duration strictly
exceeds the VM idle timeout; and when a VM record is present with a
status other than stopped, one environment that is not stopped forces
the predicate to false regardless of the VM lastActive age. -/
theorem isVMIdle_iff :
    ∀ (threshold now : Int) (st : State),
      (IsVMIdle threshold now st = true
        ↔ st.VM = none
          ∨ ∃ vm, st.VM = some vm
              ∧ (vm.Status = "stopped"
                ∨ ((∀ env ∈ st.ListEnvs, env.Status = "stopped")
                    ∧ now - vm.LastActive > threshold)))
      ∧ (∀ vm, st.VM = some vm → vm.Status ≠ "stopped" →
          (∃ env ∈ st.ListEnvs, env.Status ≠ "stopped") →
          IsVMIdle threshold now st = false) := by
  intro threshold now st
  constructor
  · cases hvm : st.VM with
    | none => simp [IsVMIdle, State.GetVM, hvm]
    | some vm =>
      simp only [IsVMIdle, State.GetVM, hvm]
      by_cases hs : vm.Status = "stopped"
      · simp [hs, hvm]
      · rw [if_neg hs]
        by_cases hall : st.ListEnvs.all (fun env => env.Status = "stopped") = true
        · rw [hall]
          simp only [if_true]
          simp only [List.all_eq_true, decide_eq_true_eq] at hall
          simp [hvm, hs, hall]
          exact fun _ => hall
        · rw [Bool.not_eq_true] at hall
          rw [hall]
          simp only [Bool.false_eq_true, if_false]
          simp only [List.all_eq_false, decide_eq_true_eq] at hall
          obtain ⟨e, he, hne⟩ := hall
          simp only [hvm, false_iff]
          rintro (hnone | ⟨vm2, hvm2, hstop | ⟨hforall, _⟩⟩)
          · exact Option.noConfusion hnone
          · rw [Option.some.injEq] at hvm2
            subst hvm2
            exact hs hstop
          · exact hne (hforall e he)
  · intro vm hvm hs ⟨e, he, hne⟩
    simp only [IsVMIdle, State.GetVM, hvm]
    rw [if_neg hs]
    have hall : st.ListEnvs.all (fun env => env.Status = "stopped") = false := by
      rw [List.all_eq_false]
      exact ⟨e, he, by simpa using hne⟩
    rw [hall]
    simp

/-- Claim C6 counterexample: a document whose VM record has status
stopped while an environment is running makes the VM-idle predicate
return true, refuting the clause that one non-stopped environment
forces the predicate to false. -/
theorem isVMIdle_true_despite_running_env :
    IsVMIdle 1800 0 stC6 = true
    ∧ mkEnv "dev" "running" false 0 ∈ stC6.ListEnvs
    ∧ (mkEnv "dev" "running" false 0).Status ≠ "stopped" := by decide

/-- Claim C6 witness: the amended theorem applied at a concrete
document with a running VM record and a running environment. -/
theorem isVMIdle_iff_instance : IsVMIdle 1800 0 stW6 = false :=
  (isVMIdle_iff 1800 0 stW6).2 (mkVM "running" 0 4 "4GiB" "100GiB") rfl
    (by decide) ⟨mkEnv "dev" "running" false 0, by decide, by decide⟩

/-! Claim C3. -/

theorem read_after_save (serialize : State → String) (now : Int) (st : State) (fs : FS) :
    FS.read (SaveAtomic serialize now st fs) statePath
      = some (serialize { st with UpdatedAt := now, Schema := SchemaVersion }) := by
  simp only [SaveAtomic, FS.rename, FS.write, FS.read]
  rw [mapGet_set_self]
  exact mapGet_set_self _ _ _

/-- Claim C3 (confirmed): a locked session persists the document
exactly when the callback succeeds — on callback error the file system
is unchanged and the session returns the callback error; on callback
success the saved document is what a subsequent read of the canonical
path yields.  The hypothesis states that loading leaves the file
system unchanged, which holds whenever the canonical file is absent or
parses. -/
theorem withLockedState_commits_iff_fn_succeeds :
    ∀ (parse : String → Option State) (serialize : State → String) (env : SysEnv)
      (fn : State → Except String State) (fs : FS) (st0 : State),
      Load parse env fs = Except.ok (st0, fs) →
      (∀ e, fn st0 = Except.error e →
          WithLockedState parse serialize env true fn fs = (fs, some e))
      ∧ (∀ st1, fn st0 = Except.ok st1 →
          WithLockedState parse serialize env true fn fs
            = (SaveAtomic serialize env.now st1 fs, none)
          ∧ FS.read (SaveAtomic serialize env.now st1 fs) statePath
            = some (serialize { st1 with UpdatedAt := env.now, Schema := SchemaVersion })) := by
  intro parse serialize env fn fs st0 hload
  constructor
  · intro e he
    simp only [WithLockedState, if_true, hload, he]
  · intro st1 h1
    exact ⟨by simp only [WithLockedState, if_true, hload, h1],
      read_after_save serialize env.now st1 fs⟩

/-- Claim C3 witness: the theorem applied at a concrete file system
holding a parseable document, once with a failing callback and once
with a succeeding one. -/
theorem withLockedState_commits_instance :
    WithLockedState parseW serializeW sysEnv0 true fnErrW fsW = (fsW, some "boom")
    ∧ WithLockedState parseW serializeW sysEnv0 true fnOkW fsW
        = (SaveAtomic serializeW sysEnv0.now (docW.UpdateEnvStatus "dev" "stopped") fsW, none) :=
  ⟨(withLockedState_commits_iff_fn_succeeds parseW serializeW sysEnv0 fnErrW fsW docW rfl).1
      "boom" rfl,
   ((withLockedState_commits_iff_fn_succeeds parseW serializeW sysEnv0 fnOkW fsW docW rfl).2
      (docW.UpdateEnvStatus "dev" "stopped") rfl).1⟩

/-! Claim C4. -/

/-- Claim C4 (confirmed): loading never fails because of missing or
unparseable state — a missing file yields a freshly initialized
document without error, and an unparseable file is renamed aside to
the timestamp-suffixed backup path, a fresh document is returned
without error, and the original bytes are readable at the backup
path. -/
theorem load_missing_and_corrupt_recovery :
    ∀ (parse : String → Option State) (env : SysEnv) (fs : FS),
      (FS.read fs statePath = none →
          Load parse env fs = Except.ok (NewState env, fs))
      ∧ (∀ data, FS.read fs statePath = some data → parse data = none →
          Load parse env fs
            = Except.ok (NewState env,
                FS.rename fs statePath (statePath ++ ".bak-" ++ toString env.now))
          ∧ FS.read (FS.rename fs statePath (statePath ++ ".bak-" ++ toString env.now))
              (statePath ++ ".bak-" ++ toString env.now) = some data) := by
  intro parse env fs
  constructor
  · intro h
    simp only [Load, h]
  · intro data hdata hparse
    constructor
    · simp only [Load, hdata, hparse]
    · unfold FS.rename
      have hg : mapGet fs statePath = some data := hdata
      rw [hg]
      unfold FS.write FS.read
      exact mapGet_set_self _ _ _

/-- Claim C4 witness: the theorem applied at a file system whose
canonical state file holds unparseable bytes. -/
theorem load_corrupt_recovery_instance :
    Load (fun _ => none) sysEnv0 [(statePath, "garbage")]
      = Except.ok (NewState sysEnv0,
          FS.rename [(statePath, "garbage")] statePath (statePath ++ ".bak-" ++ toString sysEnv0.now))
    ∧ FS.read (FS.rename [(statePath, "garbage")] statePath
          (statePath ++ ".bak-" ++ toString sysEnv0.now))
        (statePath ++ ".bak-" ++ toString sysEnv0.now) = some "garbage" :=
  (load_missing_and_corrupt_recovery (fun _ => none) sysEnv0 [(statePath, "garbage")]).2
    "garbage" rfl rfl

/-! Claim C7. -/

/-- Claim C7, amended (corrected): whenever EnsureVMRunning finds the
stored VM status stopped (or stale, with the live check disagreeing),
it issues the Supervisor start with the fixed default sizing of 4
CPUs, 4GiB memory and 100GiB disk — not the sizing recorded in the VM
record — and it returns the state document unmodified, so the stored
VM status is not updated to running. -/
theorem ensureVMRunning_starts_with_default_config :
    ∀ (st : State) (vm : VMInfo) (q : LimaQuery) (upOk : Bool),
      st.VM = some vm →
      (vm.Status ≠ "running"
        ∨ (q.err = none ∧ ¬(q.found = true ∧ q.status = "Running"))) →
      EnsureVMRunning st q upOk
        = ([VMAction.limaUp limaDefault],
           (if upOk then none else some "failed to start VM"), st) := by
  intro st vm q upOk hvm hcond
  have h1 : ¬(vm.Status = "running" ∧ q.err = none ∧ q.found = true ∧ q.status = "Running") := by
    rintro ⟨hr, he, hf, hs⟩
    rcases hcond with hnr | ⟨_, hnfs⟩
    · exact hnr hr
    · exact hnfs ⟨hf, hs⟩
  have h2 : ¬(vm.Status = "running" ∧ q.err ≠ none) := by
    rintro ⟨hr, hne⟩
    rcases hcond with hnr | ⟨he, _⟩
    · exact hnr hr
    · exact hne he
  simp only [EnsureVMRunning, State.GetVM, hvm]
  rw [if_neg h1, if_neg h2]
  cases upOk <;> rfl

/-- Claim C7 counterexample: on a document whose VM record has sizing
8 CPUs, 8GiB, 200GiB and status stopped, EnsureVMRunning issues the
Supervisor start with the default sizing rather than the recorded one,
and the resulting document still carries status stopped, not
running. -/
theorem ensureVMRunning_ignores_recorded_config :
    (EnsureVMRunning stC7 qC true).1 = [VMAction.limaUp limaDefault]
    ∧ limaDefault
        ≠ { CPUs := vmSizedC.CPUs, Memory := vmSizedC.Memory, Disk := vmSizedC.Disk }
    ∧ (EnsureVMRunning stC7 qC true).2.2 = stC7
    ∧ Option.map VMInfo.Status ((EnsureVMRunning stC7 qC true).2.2.VM) = some "stopped" := by
  decide

/-- Claim C7 witness: the amended theorem applied at the concrete
stopped VM record with non-default sizing. -/
theorem ensureVMRunning_default_config_instance :
    EnsureVMRunning stC7 qC true = ([VMAction.limaUp limaDefault], none, stC7) := by
  have h := ensureVMRunning_starts_with_default_config stC7 vmSizedC qC true rfl
    (Or.inl (by decide))
  simpa using h

/-! Claim C8. -/

/-- Claim C8, amended (corrected): removeEnvironment deletes the
environment record and leaves the port registry with no reserved
entries under that name; the call is a no-op on the document when the
name is absent from both the environment map and the port registry
(when the name is absent as an environment but still owns reserved
ports, those ports are released, so the document changes). -/
theorem removeEnv_deletes_and_releases :
    ∀ (s : State) (name : String),
      (mapGet (State.RemoveEnv s name).Envs name = none
        ∧ mapGet (State.RemoveEnv s name).Ports.Reserved name = none)
      ∧ (mapGet s.Envs name = none → mapGet s.Ports.Reserved name = none →
          State.RemoveEnv s name = s) := by
  intro s name
  constructor
  · exact ⟨mapGet_del_self s.Envs name, mapGet_del_self s.Ports.Reserved name⟩
  · intro h1 h2
    obtain ⟨sch, upd, host, vm, ports, envs, shims⟩ := s
    obtain ⟨nextE, reserved⟩ := ports
    simp only [State.RemoveEnv, State.ReleasePorts] at *
    rw [mapDel_of_get_none envs name h1, mapDel_of_get_none reserved name h2]

/-- Claim C8 counterexample: on a document whose port registry holds
entries under a name with no environment record, the call is not a
no-op — it releases those ports and changes the document. -/
theorem removeEnv_not_noop_on_orphan_ports :
    mapGet docX.Envs "x" = none ∧ State.RemoveEnv docX "x" ≠ docX := by decide

/-- Claim C8 witness: the amended theorem applied at the orphan-ports
document and at the fresh document where the name is fully absent. -/
theorem removeEnv_deletes_and_releases_instance :
    mapGet (State.RemoveEnv docX "x").Ports.Reserved "x" = none
    ∧ State.RemoveEnv (NewState sysEnv0) "nope" = NewState sysEnv0 :=
  ⟨(removeEnv_deletes_and_releases docX "x").1.2,
   (removeEnv_deletes_and_releases (NewState sysEnv0) "nope").2 rfl rfl⟩

/-! Claim C9. -/

theorem all_mapSet {α : Type} (p : String × α → Bool) :
    ∀ (l : List (String × α)) (k : String) (v : α),
      l.all p = true → p (k, v) = true → (mapSet l k v).all p = true := by
  intro l
  induction l with
  | nil => intro k v _ hp; simpa [mapSet] using hp
  | cons q rest ih =>
    intro k v hall hp
    simp only [List.all_cons, Bool.and_eq_true] at hall
    simp only [mapSet]
    by_cases h : q.1 = k
    · rw [if_pos h]
      simp only [List.all_cons, Bool.and_eq_true]
      exact ⟨hp, hall.2⟩
    · rw [if_neg h]
      simp only [List.all_cons, Bool.and_eq_true]
      exact ⟨hall.1, ih k v hall.2 hp⟩

theorem all_mapDel {α : Type} (p : String × α → Bool) :
    ∀ (l : List (String × α)) (k : String),
      l.all p = true → (mapDel l k).all p = true := by
  intro l
  induction l with
  | nil => intro _ h; exact h
  | cons q rest ih =>
    intro k hall
    simp only [List.all_cons, Bool.and_eq_true] at hall
    simp only [mapDel]
    by_cases h : q.1 = k
    · rw [if_pos h]; exact ih k hall.2
    · rw [if_neg h]
      simp only [List.all_cons, Bool.and_eq_true]
      exact ⟨hall.1, ih k hall.2⟩

theorem all_map_impl {α : Type} (p : α → Bool) (f : α → α)
    (hf : ∀ x, p x = true → p (f x) = true) :
    ∀ (l : List α), l.all p = true → (l.map f).all p = true := by
  intro l
  induction l with
  | nil => intro h; exact h
  | cons x rest ih =>
    intro hall
    simp only [List.all_cons, Bool.and_eq_true] at hall
    simp only [List.map_cons, List.all_cons, Bool.and_eq_true]
    exact ⟨hf x hall.1, ih hall.2⟩

theorem okOp_preserves_invariant :
    ∀ (op : Op) (s : State),
      noRunningEnvWithoutVM s = true → okOp op s = true →
      noRunningEnvWithoutVM (applyOp op s) = true := by
  intro op s hinv hok
  cases op with
  | setVM vm =>
    cases vm with
    | none =>
      simp only [okOp] at hok
      simp only [applyOp, State.SetVM, noRunningEnvWithoutVM, Option.isSome_none, Bool.false_or]
      exact hok
    | some v =>
      simp [applyOp, State.SetVM, noRunningEnvWithoutVM]
  | updateVMStatus status =>
    simp only [applyOp, State.UpdateVMStatus]
    cases hvm : s.VM with
    | none => exact hinv
    | some vm => simp [noRunningEnvWithoutVM]
  | touchVMActivity now =>
    simp only [applyOp, State.TouchVMActivity]
    cases hvm : s.VM with
    | none => exact hinv
    | some vm => simp [noRunningEnvWithoutVM]
  | upsertEnv env =>
    simp only [applyOp, State.UpsertEnv, noRunningEnvWithoutVM] at *
    simp only [okOp] at hok
    by_cases hv : s.VM.isSome = true
    · simp [hv]
    · rw [Bool.not_eq_true] at hv
      rw [hv] at hinv hok ⊢
      simp only [Bool.false_or] at hinv ⊢
      simp only [Bool.or_false] at hok
      exact all_mapSet _ s.Envs env.Name env hinv hok
  | removeEnv name =>
    simp only [applyOp, State.RemoveEnv, State.ReleasePorts, noRunningEnvWithoutVM] at *
    by_cases hv : s.VM.isSome = true
    · simp [hv]
    · rw [Bool.not_eq_true] at hv
      rw [hv] at hinv ⊢
      simp only [Bool.false_or] at hinv ⊢
      exact all_mapDel _ s.Envs name hinv
  | updateEnvStatus name status =>
    simp only [applyOp, State.UpdateEnvStatus, noRunningEnvWithoutVM] at *
    simp only [okOp] at hok
    by_cases hv : s.VM.isSome = true
    · simp [hv]
    · rw [Bool.not_eq_true] at hv
      rw [hv] at hinv hok ⊢
      simp only [Bool.false_or] at hinv ⊢
      simp only [Bool.or_false, decide_eq_true_eq] at hok
      refine all_map_impl _ _ ?_ s.Envs hinv
      intro x hx
      by_cases hn : x.1 = name
      · rw [if_pos hn]
        simpa using hok
      · rw [if_neg hn]
        exact hx
  | touchEnvActivity name now =>
    simp only [applyOp, State.TouchEnvActivity, noRunningEnvWithoutVM] at *
    by_cases hv : s.VM.isSome = true
    · simp [hv]
    · rw [Bool.not_eq_true] at hv
      rw [hv] at hinv ⊢
      simp only [Bool.false_or] at hinv ⊢
      refine all_map_impl _ _ ?_ s.Envs hinv
      intro x hx
      by_cases hn : x.1 = name
      · rw [if_pos hn]
        simpa using hx
      · rw [if_neg hn]
        exact hx
  | reservePort name suggested => exact hinv
  | releasePorts name => exact hinv
  | registerShim a e t => exact hinv
  | unregisterShim a => exact hinv

theorem okSeq_preserves_invariant :
    ∀ (ops : List Op) (s : State),
      noRunningEnvWithoutVM s = true → okSeq ops s = true →
      noRunningEnvWithoutVM (applyOps ops s) = true := by
  intro ops
  induction ops with
  | nil => intro s h _; exact h
  | cons op rest ih =>
    intro s h hseq
    simp only [okSeq, Bool.and_eq_true] at hseq
    exact ih (applyOp op s) (okOp_preserves_invariant op s h hseq.1) hseq.2

/-- Claim C9, amended (corrected): the store operations do not by
themselves enforce the invariant; it holds in the initial empty
document and along every operation sequence whose steps respect the
guard okOp — upserting an environment with running status or updating
a status to running only while the VM record is present, and clearing
the VM record only while no environment is running.  An unguarded
upsert of a running environment into the VM-less initial document
violates the invariant. -/
theorem guarded_ops_preserve_no_running_without_vm :
    ∀ (env : SysEnv) (ops : List Op),
      okSeq ops (NewState env) = true →
      noRunningEnvWithoutVM (applyOps ops (NewState env)) = true := by
  intro env ops h
  exact okSeq_preserves_invariant ops (NewState env) rfl h

/-- Claim C9 counterexample: a document reachable from the initial
empty document by a single store operation — upserting a running
environment — has no VM record while an environment record has status
running. -/
theorem vm_absent_with_running_env_reachable :
    Reachable sysEnv0 badDoc ∧ badDoc.VM = none
    ∧ mapGet badDoc.Envs "dev" = some (mkEnv "dev" "running" false 0)
    ∧ (mkEnv "dev" "running" false 0).Status = "running" :=
  ⟨⟨[Op.upsertEnv (mkEnv "dev" "running" false 0)], rfl⟩, by decide, by decide, rfl⟩

/-- Claim C9 witness: the amended theorem applied at a guarded
sequence that creates the VM record before upserting a running
environment. -/
theorem guarded_ops_instance :
    okSeq opsW (NewState sysEnv0) = true
    ∧ noRunningEnvWithoutVM (applyOps opsW (NewState sysEnv0)) = true :=
  ⟨by decide, guarded_ops_preserve_no_running_without_vm sysEnv0 opsW (by decide)⟩

end Silibox
